import Mathlib

/-!
Verification of the `chatbot_starwars` retrieval-augmented-generation pipeline.

Text is modelled as `List Char`; the floating-point similarity scores of the
source are idealised as rationals (`ℚ`).  External capabilities (the embedding
model, the vector index, the language model, the file system and the wall
clock) are abstracted: the vector index's answer to a nearest-neighbor lookup
is an explicit list of neighbors carrying distances, the language model's
stream is an explicit list of text fragments, and the JSONL log file is an
explicit list of entries threaded through the functions that append to it.
The `timestamp` field of a log entry records wall-clock time and is omitted
from the model.
-/

/-! ## Python string helpers shared by the modules -/

/-- The characters Python's `str.strip()` removes. -/
def isPySpace (c : Char) : Bool :=
  c = ' ' || c = '\t' || c = '\n' || c = '\r' || c = '\x0b' || c = '\x0c'

/-- Python `str.strip()`: drop leading and trailing whitespace. -/
def pyStrip (l : List Char) : List Char :=
  ((l.dropWhile isPySpace).reverse.dropWhile isPySpace).reverse

/-! ## 04_query.py — Retrieval -/

/-- Configuration constant `MIN_SIMILARITY` of `04_query.py`. -/
def MIN_SIMILARITY : ℚ := 45/100

/-- One neighbor returned by the vector index for a query: the stored
document text, its `film`/`heading` metadata, and the cosine distance. -/
structure Neighbor where
  text : List Char
  film : List Char
  heading : List Char
  distance : ℚ
deriving DecidableEq

/-- A retained retrieval result as built by `retrieve`. -/
structure RChunk where
  text : List Char
  film : List Char
  heading : List Char
  similarity : ℚ
deriving DecidableEq

/-- `retrieve` of `04_query.py`, applied to the neighbor list the index
returns for the query's embedding: convert each distance to a similarity via
`1 - dist` and keep the result only when `similarity >= MIN_SIMILARITY`. -/
def retrieve (neighbors : List Neighbor) : List RChunk :=
  neighbors.filterMap (fun n =>
    let similarity := 1 - n.distance
    if MIN_SIMILARITY ≤ similarity then
      some ⟨n.text, n.film, n.heading, similarity⟩
    else none)

/-- The outcome strings written by `04_query.py`. -/
inductive Outcome where
  | answered
  | rejected_no_chunks
  | rejected_low_similarity
deriving DecidableEq

/-- `is_context_sufficient` of `04_query.py`: gate the LLM call. -/
def is_context_sufficient (chunks : List RChunk) : Bool × Outcome :=
  match chunks with
  | [] => (false, Outcome.rejected_no_chunks)
  | c :: _ =>
    if c.similarity < MIN_SIMILARITY then (false, Outcome.rejected_low_similarity)
    else (true, Outcome.answered)

/-! ## 04_query.py — Logging and the per-query flow -/

/-- Round-half-to-even on a rational, the rounding Python's builtin
`round` uses. -/
def roundHalfEven (q : ℚ) : ℤ :=
  let f := ⌊q⌋
  if q - f < 1/2 then f
  else if 1/2 < q - f then f + 1
  else if Even f then f else f + 1

/-- Python `round(x, 4)` as used on each logged similarity. -/
def pyRound4 (q : ℚ) : ℚ := (roundHalfEven (q * 10000) : ℚ) / 10000

/-- One record of the JSONL query log (`timestamp` omitted, see the file
header). `chunks_retrieved` holds `(film, heading, similarity)` triples. -/
structure LogEntry where
  query : List Char
  outcome : Outcome
  top_similarity : Option ℚ
  chunks_retrieved : List (List Char × List Char × ℚ)
  answer : Option (List Char)
deriving DecidableEq

/-- `log_query` of `04_query.py`: append one structured entry to the log.
The log file is modelled as the list of entries appended so far. -/
def log_query (query : List Char) (chunks : List RChunk) (outcome : Outcome)
    (answer : Option (List Char)) (log : List LogEntry) : List LogEntry :=
  log ++ [{ query := query
            outcome := outcome
            top_similarity := chunks.head?.map (fun c => c.similarity)
            chunks_retrieved :=
              chunks.map (fun c => (c.film, c.heading, pyRound4 c.similarity))
            answer := answer }]

/-- `ask` of `04_query.py`, restricted to its observable effect on the log.
`neighbors` is the index's answer for the query, `stream` the fragments the
language model would produce on the answered path. -/
def ask (query : List Char) (neighbors : List Neighbor)
    (stream : List (List Char)) (log : List LogEntry) : List LogEntry :=
  let chunks := retrieve neighbors
  let gate := is_context_sufficient chunks
  if gate.1 then
    log_query query chunks gate.2 (some stream.flatten) log
  else
    log_query query chunks gate.2 none log

/-! ## 01_ingest.py — film titles -/

/-- Root part of `os.path.splitext` for a bare filename (no directory
separator): the extension starts at the rightmost dot, unless every
character before that dot is itself a dot (a leading-dots name has no
extension). -/
def splitextRoot (filename : List Char) : List Char :=
  let afterDot := filename.reverse.takeWhile (fun c => !(c = '.'))
  if afterDot.length = filename.length then filename
  else
    let extIndex := filename.length - afterDot.length - 1
    let leadDots := (filename.takeWhile (fun c => c = '.')).length
    if extIndex ≤ leadDots then filename
    else filename.take extIndex

/-- Python `str.replace("-", " ")`: a single-character pattern, so a
per-character substitution. -/
def replaceDash (l : List Char) : List Char :=
  l.map (fun c => if c = '-' then ' ' else c)

/-- Python `str.title()` on ASCII text: a letter is uppercased when the
previous character is not a cased (alphabetic) character, lowercased
otherwise; non-letters pass through and reset the word boundary. -/
def pyTitleAux : Bool → List Char → List Char
  | _, [] => []
  | prevCased, c :: cs =>
    if c.isAlpha then
      (if prevCased then c.toLower else c.toUpper) :: pyTitleAux true cs
    else c :: pyTitleAux false cs

/-- `derive_film_title` of `01_ingest.py`:
`os.path.splitext(filename)[0].replace("-", " ").title()`. -/
def derive_film_title (filename : List Char) : List Char :=
  pyTitleAux false (replaceDash (splitextRoot filename))

/-! ## 01_ingest.py — scene extraction -/

/-- The lines of a text together with the character offset at which each
line starts, matching where `(?m)^` anchors a match in Python's `re`. -/
def linesAux : List Char → Nat → Nat → List Char → List (Nat × List Char)
  | [], _, curStart, cur => [(curStart, cur.reverse)]
  | c :: cs, pos, curStart, cur =>
    if c = '\n' then (curStart, cur.reverse) :: linesAux cs (pos+1) (pos+1) []
    else linesAux cs (pos+1) curStart (c :: cur)

/-- All lines of `text` with their starting offsets. -/
def linesWithPos (text : List Char) : List (Nat × List Char) :=
  linesAux text 0 0 []

/-- One alternative of the scene-heading pattern: the keyword, then one
character matching `[\.\s]`, then at least one further character
(the regex's `.+?$` runs to the end of the line). -/
def kwMatch (kw : List Char) (l : List Char) : Bool :=
  kw.isPrefixOf l &&
    match l.drop kw.length with
    | c :: rest => (c = '.' || isPySpace c) && !rest.isEmpty
    | [] => false

/-- The alternation `(?:INT|EXT|INT\/EXT|I\/E)[\.\s].+?$` of the scene
pattern of `extract_scenes`, applied at the start of a line. -/
def headerKw (l : List Char) : Bool :=
  kwMatch "INT".toList l || kwMatch "EXT".toList l ||
    kwMatch "INT/EXT".toList l || kwMatch "I/E".toList l

/-- Match the scene-heading regex
`(?m)^(?:\d+\s+)?((?:INT|EXT|INT\/EXT|I\/E)[\.\s].+?)$` against one line,
returning the captured group. The optional `\d+\s+` prefix is tried first
(greedily) exactly as the backtracking engine does; since the captured group
must begin with `I` or `E`, the two branches never overlap. -/
def matchHeaderLine (line : List Char) : Option (List Char) :=
  let ds := line.takeWhile Char.isDigit
  let afterDs := line.dropWhile Char.isDigit
  let ws := afterDs.takeWhile isPySpace
  let rest := afterDs.dropWhile isPySpace
  if !ds.isEmpty && !ws.isEmpty && headerKw rest then some rest
  else if headerKw line then some line
  else none

/-- The header list of `extract_scenes`:
`[(m.start(), m.group(1).strip()) for m in scene_pattern.finditer(text)]`.
A match is anchored at a line start, so `m.start()` is the line's offset. -/
def findHeaders (text : List Char) : List (Nat × List Char) :=
  (linesWithPos text).filterMap (fun pl =>
    (matchHeaderLine pl.2).map (fun g => (pl.1, pyStrip g)))

/-- A scene produced by the Segmenter. -/
structure Document where
  film : List Char
  scene_id : Nat
  heading : List Char
  text : List Char
deriving DecidableEq

/-- Python slice `text[s:e]` for natural indices. -/
def sceneSlice (text : List Char) (s e : Nat) : List Char :=
  (text.drop s).take (e - s)

/-- Where the span of the current header ends: at the next header's start,
or at the end of the text for the last header. -/
def nextEndPos (text : List Char) : List (Nat × List Char) → Nat
  | [] => text.length
  | h2 :: _ => h2.1

/-- The loop of `extract_scenes` over the enumerated header list: the `i`-th
header yields a Document with `scene_id = i + 1` whose text is the stripped
span up to the next header, skipped when shorter than 30 characters. -/
def scenesFrom (text film : List Char) : List (Nat × List Char) → Nat → List Document
  | [], _ => []
  | h :: rest, i =>
    let scene_text := pyStrip (sceneSlice text h.1 (nextEndPos text rest))
    if scene_text.length < 30 then scenesFrom text film rest (i+1)
    else ⟨film, i + 1, h.2, scene_text⟩ :: scenesFrom text film rest (i+1)

/-- `extract_scenes` of `01_ingest.py`. -/
def extract_scenes (cleaned_text film_title : List Char) : List Document :=
  let headers := findHeaders cleaned_text
  if headers.isEmpty then
    [⟨film_title, 0, "FULL SCRIPT".toList, cleaned_text⟩]
  else
    scenesFrom cleaned_text film_title headers 0

/-- Concatenation, in order, of the text spans of a Document list. -/
def concatTexts (docs : List Document) : List Char :=
  (docs.map (fun d => d.text)).flatten

/-- The inter-header spans of `text` are well-behaved: each span lies within
the text with ordered endpoints, is unchanged by `strip`, and is at least 30
characters long (so `extract_scenes` keeps it verbatim). -/
def spansOk (text : List Char) : List (Nat × List Char) → Bool
  | [] => true
  | h :: rest =>
    let sp := sceneSlice text h.1 (nextEndPos text rest)
    decide (h.1 ≤ nextEndPos text rest) && decide (pyStrip sp = sp) &&
      decide (30 ≤ sp.length) && spansOk text rest

/-! ## 02_chunk.py — chunking -/

/-- A chunk as produced by the Chunker. -/
structure Chunk where
  chunk_id : Nat
  film : List Char
  scene_id : Nat
  heading : List Char
  chunk_index : Nat
  total_chunks : Nat
  text : List Char
deriving DecidableEq

/-- The inner loop of `chunk_documents` over `enumerate(splits)`: the `i`-th
split of a Document becomes a chunk carrying the Document's metadata, the
running global `chunk_counter`, its position `i`, and the split count. -/
def emitChunks (film : List Char) (sid : Nat) (heading : List Char)
    (total : Nat) : Nat → Nat → List (List Char) → List Chunk
  | _, _, [] => []
  | counter, i, t :: ts =>
    ⟨counter, film, sid, heading, i, total, t⟩ ::
      emitChunks film sid heading total (counter+1) (i+1) ts

/-- The outer loop of `chunk_documents` over the Document list, threading the
global `chunk_counter`. -/
def chunkDocsFrom (split : List Char → List (List Char)) :
    List Document → Nat → List Chunk
  | [], _ => []
  | d :: ds, counter =>
    let splits := split d.text
    emitChunks d.film d.scene_id d.heading splits.length counter 0 splits
      ++ chunkDocsFrom split ds (counter + splits.length)

/-- `chunk_documents` of `02_chunk.py`, parameterized by the external text
splitter (`RecursiveCharacterTextSplitter.split_text` in the source); the
id/index/count bookkeeping the claims are about is independent of it. -/
def chunk_documents (split : List Char → List (List Char))
    (docs : List Document) : List Chunk :=
  chunkDocsFrom split docs 0

/-- Modelled from the spec: the external
`RecursiveCharacterTextSplitter(chunk_size=500, chunk_overlap=100)` is not in
this repository; per spec §4.2 a text already at or under the 500-character
target is returned whole as one chunk, and a longer text with no structural
separators falls through to character-boundary splitting into 500-character
windows overlapping by 100 characters. -/
def splitModel (t : List Char) : List (List Char) :=
  if t.length ≤ 500 then [t] else [t.take 500, (t.drop 400).take 500]

/-- Two Documents carrying the same `(film, scene_id)` key, as arises when
two script files derive the same film title: one short scene (one chunk) and
one 600-character scene (two chunks). -/
def dupKeyDocs : List Document :=
  [⟨"A B".toList, 1, "H".toList, "short scene".toList⟩,
   ⟨"A B".toList, 1, "H".toList, List.replicate 600 'a'⟩]

/-- The same two Documents with distinct `(film, scene_id)` keys. -/
def distinctKeyDocs : List Document :=
  [⟨"A B".toList, 1, "H".toList, "short scene".toList⟩,
   ⟨"A B".toList, 2, "H2".toList, List.replicate 600 'a'⟩]

/-! ## 03_embed_index.py — the Indexer -/

/-- Configuration constant `MIN_CHUNK_LENGTH` of `03_embed_index.py`. -/
def MIN_CHUNK_LENGTH : Nat := 10

/-- Configuration constant `BATCH_SIZE` of `03_embed_index.py`. -/
def BATCH_SIZE : Nat := 64

/-- Configuration constant `COLLECTION_NAME` of `03_embed_index.py`. -/
def COLLECTION_NAME : List Char := "starwars".toList

/-- `load_chunks` of `03_embed_index.py`, applied to the parsed JSON chunk
array: keep only chunks whose text has at least `MIN_CHUNK_LENGTH`
characters (reading the file and reporting the filtered chunks is I/O,
outside the model). -/
def load_chunks (chunks : List Chunk) : List Chunk :=
  chunks.filter (fun c => decide (MIN_CHUNK_LENGTH ≤ c.text.length))

/-- Model of the external ChromaDB persistent client (spec §6): named
collections, each holding the list of ids added to it so far.  The documents,
embeddings and metadata the source adds alongside the ids are functions of
the same chunks and play no role in the size/id-set claims. -/
structure ChromaStore where
  colls : List (List Char × List (List Char))
deriving DecidableEq

/-- `client.list_collections()` (collection names, chromadb ≥ 0.6). -/
def list_collections (s : ChromaStore) : List (List Char) :=
  s.colls.map Prod.fst

/-- `client.delete_collection(n)`. -/
def delete_collection (s : ChromaStore) (n : List Char) : ChromaStore :=
  ⟨s.colls.filter (fun p => !decide (p.1 = n))⟩

/-- `client.create_collection(n, ...)`: a fresh empty collection. -/
def create_collection (s : ChromaStore) (n : List Char) : ChromaStore :=
  ⟨s.colls ++ [(n, [])]⟩

/-- `collection.add(ids=..., ...)`: append the batch's ids. -/
def coll_add (s : ChromaStore) (n : List Char) (ids : List (List Char)) : ChromaStore :=
  ⟨s.colls.map (fun p => if p.1 = n then (p.1, p.2 ++ ids) else p)⟩

/-- The ids held by collection `n`. -/
def coll_ids (s : ChromaStore) (n : List Char) : List (List Char) :=
  ((s.colls.find? (fun p => decide (p.1 = n))).map Prod.snd).getD []

/-- `collection.count()`. -/
def coll_count (s : ChromaStore) (n : List Char) : Nat :=
  (coll_ids s n).length

/-- `str(chunk_id)`. -/
def strOfNat (n : Nat) : List Char := Nat.toDigits 10 n

/-- The batch `chunks[batch_num * BATCH_SIZE : (batch_num + 1) * BATCH_SIZE]`. -/
def batchOf (chunks : List Chunk) (b : Nat) : List Chunk :=
  (chunks.drop (b * BATCH_SIZE)).take BATCH_SIZE

/-- `build_chroma_collection` of `03_embed_index.py` over the store model:
delete a pre-existing collection of the target name, create it afresh, and
add each batch's ids in order (embedding the batch is external and does not
affect which ids are stored). -/
def build_chroma_collection (chunks : List Chunk) (store : ChromaStore) : ChromaStore :=
  let store1 :=
    if COLLECTION_NAME ∈ list_collections store then
      delete_collection store COLLECTION_NAME
    else store
  let store2 := create_collection store1 COLLECTION_NAME
  let total_batches := (chunks.length + BATCH_SIZE - 1) / BATCH_SIZE
  (List.range total_batches).foldl
    (fun st b =>
      coll_add st COLLECTION_NAME
        ((batchOf chunks b).map (fun c => strOfNat c.chunk_id)))
    store2

/-! ## Helper lemmas about retrieval -/

/-- Anything `retrieve` keeps came from a neighbor, carries that neighbor's
fields, and has similarity `1 - distance` at or above the threshold. -/
theorem mem_retrieve {neighbors : List Neighbor} {c : RChunk}
    (h : c ∈ retrieve neighbors) :
    MIN_SIMILARITY ≤ c.similarity ∧
      ∃ n ∈ neighbors, c = ⟨n.text, n.film, n.heading, 1 - n.distance⟩ := by
  rw [retrieve] at h
  rcases List.mem_filterMap.1 h with ⟨n, hn, hf⟩
  by_cases hs : MIN_SIMILARITY ≤ 1 - n.distance
  · simp only [hs, if_pos] at hf
    cases hf
    exact ⟨hs, n, hn, rfl⟩
  · simp [hs] at hf

/-! ## C1 — composing retrieve with the gate on a below-threshold lookup -/

/-- Claim C1, counterexample: a nearest-neighbor lookup returning one
neighbor at distance 0.70 (similarity 0.30, threshold 0.45) is non-empty and
below threshold, yet the pipeline `retrieve` → `is_context_sufficient` does
NOT yield `rejected_low_similarity`; it yields `rejected_no_chunks`. -/
theorem pipeline_low_similarity_cex :
    ([(⟨"t".toList, "f".toList, "h".toList, 7/10⟩ : Neighbor)] ≠ []) ∧
    (1 - (7/10 : ℚ) = 3/10) ∧ ((3/10 : ℚ) < 45/100) ∧
    (is_context_sufficient
        (retrieve [⟨"t".toList, "f".toList, "h".toList, 7/10⟩])).2
      ≠ Outcome.rejected_low_similarity ∧
    (is_context_sufficient
        (retrieve [⟨"t".toList, "f".toList, "h".toList, 7/10⟩])).2
      = Outcome.rejected_no_chunks := by
  have hpipe : (is_context_sufficient
      (retrieve [⟨"t".toList, "f".toList, "h".toList, 7/10⟩])).2
        = Outcome.rejected_no_chunks := by
    norm_num [retrieve, MIN_SIMILARITY, List.filterMap_cons, is_context_sufficient]
  exact ⟨by simp, by norm_num, by norm_num, by rw [hpipe]; simp, hpipe⟩

/-- Claim C1, amended: for every query whose nearest-neighbor lookup returns
a non-empty list in which every similarity (hence in particular the best one)
is below the configured threshold, the pipeline `retrieve` followed by
`is_context_sufficient` yields `rejected_no_chunks`, not
`rejected_low_similarity`: the Retriever's own filtering empties the result
list first, so the below-threshold case is logged identically to the
empty-results case and the two are NOT distinguishable in the log. -/
theorem pipeline_below_threshold_rejected_no_chunks
    (neighbors : List Neighbor) (hne : neighbors ≠ [])
    (hlow : ∀ n ∈ neighbors, 1 - n.distance < MIN_SIMILARITY) :
    (is_context_sufficient (retrieve neighbors)).2 = Outcome.rejected_no_chunks ∧
    (is_context_sufficient (retrieve neighbors)).2 ≠ Outcome.rejected_low_similarity := by
  have hempty : retrieve neighbors = [] := by
    rw [retrieve, List.filterMap_eq_nil_iff]
    intro n hn
    simp [not_le.2 (hlow n hn)]
  rw [hempty]
  exact ⟨rfl, by simp [is_context_sufficient]⟩

/-- Witness for the amended C1 at the concrete lookup of the counterexample. -/
theorem pipeline_below_threshold_rejected_no_chunks_wit :
    (([(⟨"t".toList, "f".toList, "h".toList, 7/10⟩ : Neighbor)] ≠ []) ∧
      (∀ n ∈ [(⟨"t".toList, "f".toList, "h".toList, 7/10⟩ : Neighbor)],
        1 - n.distance < MIN_SIMILARITY)) ∧
    (is_context_sufficient
        (retrieve [⟨"t".toList, "f".toList, "h".toList, 7/10⟩])).2
      = Outcome.rejected_no_chunks ∧
    (is_context_sufficient
        (retrieve [⟨"t".toList, "f".toList, "h".toList, 7/10⟩])).2
      ≠ Outcome.rejected_low_similarity := by
  have hlow : ∀ n ∈ [(⟨"t".toList, "f".toList, "h".toList, 7/10⟩ : Neighbor)],
      1 - n.distance < MIN_SIMILARITY := by
    intro n hn
    simp only [List.mem_singleton] at hn
    subst hn
    norm_num [MIN_SIMILARITY]
  exact ⟨⟨by simp, hlow⟩,
    pipeline_below_threshold_rejected_no_chunks _ (by simp) hlow⟩

/-! ## C2 — the gate's outcome characterization -/

/-- Claim C2: `is_context_sufficient` returns `(False, rejected_no_chunks)`
iff the list is empty; `(False, rejected_low_similarity)` iff the list is
non-empty with its first similarity below `MIN_SIMILARITY`; and
`(True, answered)` otherwise. -/
theorem gate_outcome_characterization (chunks : List RChunk) :
    (is_context_sufficient chunks = (false, Outcome.rejected_no_chunks) ↔
      chunks = []) ∧
    (is_context_sufficient chunks = (false, Outcome.rejected_low_similarity) ↔
      ∃ c cs, chunks = c :: cs ∧ c.similarity < MIN_SIMILARITY) ∧
    (is_context_sufficient chunks = (true, Outcome.answered) ↔
      ∃ c cs, chunks = c :: cs ∧ ¬ c.similarity < MIN_SIMILARITY) := by
  match chunks with
  | [] => simp [is_context_sufficient]
  | c :: cs =>
    by_cases h : c.similarity < MIN_SIMILARITY
    · simp [is_context_sufficient, h]
    · simp [is_context_sufficient, h, not_lt.1 h]

/-! ## C3 — rejected_low_similarity is unreachable through retrieve -/

/-- Claim C3: for every neighbor list the index can return, the
`rejected_low_similarity` branch of `is_context_sufficient` is unreachable
when its input is `retrieve`'s output: `retrieve` keeps only results with
similarity at or above `MIN_SIMILARITY`. -/
theorem pipeline_never_rejected_low_similarity (neighbors : List Neighbor) :
    (is_context_sufficient (retrieve neighbors)).2 ≠
      Outcome.rejected_low_similarity := by
  cases hr : retrieve neighbors with
  | nil => simp [is_context_sufficient]
  | cons c cs =>
    have hc : c ∈ retrieve neighbors := by rw [hr]; exact List.mem_cons_self c cs
    have hge := (mem_retrieve hc).1
    simp [is_context_sufficient, not_lt.2 hge]

/-! ## C4 — every retained result meets the threshold -/

/-- Claim C4: for every neighbor list the index returns, every result kept by
`retrieve` has similarity `1 - distance` of some neighbor, at or above the
configured threshold `MIN_SIMILARITY = 0.45`. -/
theorem retrieve_results_meet_threshold (neighbors : List Neighbor)
    (c : RChunk) (h : c ∈ retrieve neighbors) :
    MIN_SIMILARITY ≤ c.similarity ∧
      ∃ n ∈ neighbors, c.similarity = 1 - n.distance := by
  obtain ⟨hge, n, hn, rfl⟩ := mem_retrieve h
  exact ⟨hge, n, hn, rfl⟩

/-- Witness for C4 at a concrete retained result (distance 0.5,
similarity 0.5 ≥ 0.45). -/
theorem retrieve_results_meet_threshold_wit :
    ((⟨"t".toList, "f".toList, "h".toList, (1:ℚ)/2⟩ : RChunk)
        ∈ retrieve [⟨"t".toList, "f".toList, "h".toList, 1/2⟩]) ∧
    MIN_SIMILARITY ≤ ((1:ℚ)/2) ∧
      ∃ n ∈ [(⟨"t".toList, "f".toList, "h".toList, 1/2⟩ : Neighbor)],
        ((1:ℚ)/2) = 1 - n.distance := by
  have hmem : (⟨"t".toList, "f".toList, "h".toList, (1:ℚ)/2⟩ : RChunk)
      ∈ retrieve [⟨"t".toList, "f".toList, "h".toList, 1/2⟩] := by
    norm_num [retrieve, MIN_SIMILARITY, List.filterMap_cons]
  exact ⟨hmem, retrieve_results_meet_threshold _ _ hmem⟩

/-! ## C7 — the query log -/

/-- Claim C7, counterexample: the per-result similarity is logged rounded to
4 decimal places, not verbatim. A neighbor at distance 0.54321 is retained
with similarity 0.45679, but the single log entry records 0.4568 for it. -/
theorem log_similarity_rounded_cex :
    ((retrieve [⟨"t".toList, "f".toList, "h".toList, 54321/100000⟩]).map
        (fun c => c.similarity) = [(45679/100000 : ℚ)]) ∧
    ((ask "q".toList [⟨"t".toList, "f".toList, "h".toList, 54321/100000⟩] [] []).map
        (fun e => e.chunks_retrieved)
      = [[("f".toList, "h".toList, (4568/10000 : ℚ))]]) ∧
    ((4568/10000 : ℚ) ≠ 45679/100000) := by
  have hr : retrieve [⟨"t".toList, "f".toList, "h".toList, 54321/100000⟩]
      = [⟨"t".toList, "f".toList, "h".toList, 45679/100000⟩] := by
    norm_num [retrieve, MIN_SIMILARITY, List.filterMap_cons]
  have hfloor : ⌊(45679/100000 : ℚ) * 10000⌋ = 4567 := by
    rw [Int.floor_eq_iff]
    norm_num
  have hround : pyRound4 (45679/100000) = 4568/10000 := by
    rw [pyRound4, roundHalfEven]
    simp only [hfloor]
    norm_num
  refine ⟨by rw [hr]; simp, ?_, by norm_num⟩
  rw [ask]
  simp only [hr]
  norm_num [is_context_sufficient, MIN_SIMILARITY, log_query, hround]

/-- Claim C7, amended: for every completed query, whatever its outcome,
exactly one log entry is appended, and it captures verbatim the query, the
outcome, the top similarity (null when no results were retained) and each
retrieved result's film and heading, each retrieved result's similarity
rounded to 4 decimal places, and the final answer (null when the query was
rejected). -/
theorem log_entry_fields_amended (query : List Char) (neighbors : List Neighbor)
    (stream : List (List Char)) (log : List LogEntry) :
    ask query neighbors stream log =
      log ++ [{ query := query
                outcome := (is_context_sufficient (retrieve neighbors)).2
                top_similarity :=
                  (retrieve neighbors).head?.map (fun c => c.similarity)
                chunks_retrieved := (retrieve neighbors).map
                  (fun c => (c.film, c.heading, pyRound4 c.similarity))
                answer := if (is_context_sufficient (retrieve neighbors)).1
                          then some stream.flatten else none }] ∧
    (ask query neighbors stream log).length = log.length + 1 := by
  have hlen : ∀ o a, (log_query query (retrieve neighbors) o a log).length
      = log.length + 1 := by
    intro o a
    simp [log_query]
  rw [ask]
  by_cases h : (is_context_sufficient (retrieve neighbors)).1
  · simp only [h, if_pos, if_true]
    exact ⟨rfl, hlen _ _⟩
  · simp only [h, if_neg, Bool.false_eq_true, if_false, not_false_eq_true]
    exact ⟨rfl, hlen _ _⟩

/-! ## Helper lemmas about scene extraction -/

/-- Every Document the scene loop emits from index `i` has `scene_id`
strictly greater than `i`. -/
theorem scenesFrom_scene_id_ge (text film : List Char)
    (hs : List (Nat × List Char)) :
    ∀ (i : Nat), ∀ d ∈ scenesFrom text film hs i, i + 1 ≤ d.scene_id := by
  induction hs with
  | nil => intro i d hd; simp [scenesFrom] at hd
  | cons h rest ih =>
    intro i d hd
    rw [scenesFrom] at hd
    by_cases hlen : (pyStrip (sceneSlice text h.1 (nextEndPos text rest))).length < 30
    · rw [if_pos hlen] at hd
      exact le_trans (by omega) (ih (i+1) d hd)
    · rw [if_neg hlen] at hd
      rcases List.mem_cons.1 hd with rfl | hd'
      · simp
      · exact le_trans (by omega) (ih (i+1) d hd')

/-- The `scene_id`s the scene loop emits are strictly increasing. -/
theorem scenesFrom_pairwise (text film : List Char)
    (hs : List (Nat × List Char)) :
    ∀ (i : Nat),
      (scenesFrom text film hs i).Pairwise (fun a b => a.scene_id < b.scene_id) := by
  induction hs with
  | nil => intro i; simp [scenesFrom]
  | cons h rest ih =>
    intro i
    rw [scenesFrom]
    by_cases hlen : (pyStrip (sceneSlice text h.1 (nextEndPos text rest))).length < 30
    · rw [if_pos hlen]; exact ih (i+1)
    · rw [if_neg hlen]
      refine List.Pairwise.cons ?_ (ih (i+1))
      intro d hd
      exact scenesFrom_scene_id_ge text film rest (i+1) d hd

/-- When every span is in-bounds, strip-invariant and at least 30 characters
long, the concatenated scene texts from the header at position `start`
onwards reproduce the text from `start` onwards. -/
theorem scenesFrom_concat (text film : List Char) :
    ∀ (hs : List (Nat × List Char)) (i start : Nat),
      hs.head?.map Prod.fst = some start →
      spansOk text hs = true →
      concatTexts (scenesFrom text film hs i) = text.drop start := by
  intro hs
  induction hs with
  | nil => intro i start h; simp at h
  | cons h rest ih =>
    intro i start hhead hok
    have hstart : h.1 = start := by simpa using hhead
    rw [spansOk, Bool.and_eq_true, Bool.and_eq_true, Bool.and_eq_true] at hok
    obtain ⟨⟨⟨hle, hstrip⟩, hlen⟩, hrest⟩ := hok
    rw [decide_eq_true_iff] at hle hstrip hlen
    rw [scenesFrom, hstrip, if_neg (by omega)]
    rw [concatTexts, List.map_cons, List.flatten_cons, ← concatTexts]
    cases rest with
    | nil =>
      rw [scenesFrom]
      simp only [concatTexts, List.map_nil, List.flatten_nil, List.append_nil]
      rw [← hstart, sceneSlice, nextEndPos, ← List.length_drop]
      exact List.take_length _
    | cons h2 rest2 =>
      rw [ih i.succ h2.1 (by simp) hrest, ← hstart]
      rw [sceneSlice, nextEndPos] at *
      have hdd : (text.drop h.1).drop (h2.1 - h.1) = text.drop h2.1 := by
        rw [List.drop_drop]
        congr 1
        omega
      calc (text.drop h.1).take (h2.1 - h.1) ++ text.drop h2.1
          = (text.drop h.1).take (h2.1 - h.1) ++ (text.drop h.1).drop (h2.1 - h.1) := by
            rw [hdd]
        _ = text.drop h.1 := List.take_append_drop _ _

/-! ## C5 — concatenating scene spans -/

/-- Claim C5, counterexample: a cleaned text with two detected headers whose
concatenated extracted spans do not reconstruct the text: the two characters
before the first header are dropped, the trailing blank line of the first
span is stripped, and the 17-character second scene is skipped. -/
theorem scene_concat_reconstruction_cex :
    findHeaders
        "xx\nINT. A - DAY\nabcdefghijklmnopqrstuvwxyz\n\nEXT. B - NIGHT\nhi".toList
      ≠ [] ∧
    concatTexts (extract_scenes
        "xx\nINT. A - DAY\nabcdefghijklmnopqrstuvwxyz\n\nEXT. B - NIGHT\nhi".toList
        "F".toList)
      ≠ "xx\nINT. A - DAY\nabcdefghijklmnopqrstuvwxyz\n\nEXT. B - NIGHT\nhi".toList := by
  constructor <;> decide

/-- Claim C5, amended: for every cleaned input text in which at least one
scene header is detected, IF the first detected header starts at position 0,
and every inter-header span is unchanged by whitespace stripping and at
least 30 characters long, THEN concatenating the text spans of the Documents
returned by `extract_scenes`, in order, exactly reconstructs the cleaned
input text. (Text before the first header, whitespace trimmed at span
boundaries, and sub-30-character spans are otherwise lost.) -/
theorem scene_concat_reconstruction_amended (text film : List Char)
    (hne : findHeaders text ≠ [])
    (h0 : (findHeaders text).head?.map Prod.fst = some 0)
    (hok : spansOk text (findHeaders text) = true) :
    concatTexts (extract_scenes text film) = text := by
  simp only [extract_scenes]
  rw [if_neg (by simpa using hne)]
  rw [scenesFrom_concat text film (findHeaders text) 0 0 h0 hok]
  exact List.drop_zero text

/-- Witness for the amended C5: a 39-character script whose single header
starts at position 0 and whose single span is strip-invariant. -/
theorem scene_concat_reconstruction_amended_wit :
    (findHeaders "INT. A - DAY\nabcdefghijklmnopqrstuvwxyz".toList ≠ [] ∧
      (findHeaders "INT. A - DAY\nabcdefghijklmnopqrstuvwxyz".toList).head?.map
          Prod.fst = some 0 ∧
      spansOk "INT. A - DAY\nabcdefghijklmnopqrstuvwxyz".toList
          (findHeaders "INT. A - DAY\nabcdefghijklmnopqrstuvwxyz".toList) = true) ∧
    concatTexts (extract_scenes "INT. A - DAY\nabcdefghijklmnopqrstuvwxyz".toList
        "F".toList)
      = "INT. A - DAY\nabcdefghijklmnopqrstuvwxyz".toList := by
  have h1 : findHeaders "INT. A - DAY\nabcdefghijklmnopqrstuvwxyz".toList ≠ [] := by
    decide
  have h2 : (findHeaders "INT. A - DAY\nabcdefghijklmnopqrstuvwxyz".toList).head?.map
      Prod.fst = some 0 := by decide
  have h3 : spansOk "INT. A - DAY\nabcdefghijklmnopqrstuvwxyz".toList
      (findHeaders "INT. A - DAY\nabcdefghijklmnopqrstuvwxyz".toList) = true := by
    decide
  exact ⟨⟨h1, h2, h3⟩,
    scene_concat_reconstruction_amended _ ("F".toList) h1 h2 h3⟩

/-! ## C8 — deriving film titles from filenames -/

/-- Claim C8 names `'a_new_hope.txt' ↦ 'A New Hope'` (as does the function's
own docstring), but `derive_film_title` only replaces hyphens, not
underscores, before title-casing: the code returns `'A_New_Hope'`. -/
theorem derive_film_title_underscore_eval :
    derive_film_title "a_new_hope.txt".toList = "A_New_Hope".toList ∧
    derive_film_title "a_new_hope.txt".toList ≠ "A New Hope".toList ∧
    derive_film_title "a-new-hope.txt".toList = "A New Hope".toList := by
  refine ⟨by decide, by decide, by decide⟩

/-! ## C9 — scene_id assignment -/

/-- Claim C9: for every cleaned text and film title, the Documents produced
by `extract_scenes` carry strictly increasing (hence unique-per-film)
`scene_id`s in header order, all at least 1; and when no headers are
detected the output is exactly one Document with `scene_id` 0 and heading
`"FULL SCRIPT"` containing the whole text, so `scene_id` 0 occurs only in
that fallback. -/
theorem scene_id_invariants (text film : List Char) :
    (findHeaders text = [] →
      extract_scenes text film = [⟨film, 0, "FULL SCRIPT".toList, text⟩]) ∧
    (findHeaders text ≠ [] →
      (extract_scenes text film).Pairwise (fun a b => a.scene_id < b.scene_id) ∧
      ∀ d ∈ extract_scenes text film, 1 ≤ d.scene_id) := by
  constructor
  · intro h
    rw [extract_scenes, if_pos (by simpa using h)]
  · intro h
    rw [extract_scenes, if_neg (by simpa using h)]
    exact ⟨scenesFrom_pairwise text film _ 0,
      fun d hd => scenesFrom_scene_id_ge text film _ 0 d hd⟩

/-- Witness for C9 at two concrete inputs: a headerless text (fallback
Document) and a two-scene script (increasing positive scene ids). -/
theorem scene_id_invariants_wit :
    (findHeaders "hello".toList = [] ∧
      extract_scenes "hello".toList "F".toList
        = [⟨"F".toList, 0, "FULL SCRIPT".toList, "hello".toList⟩]) ∧
    (findHeaders "INT. A - DAY\nabcdefghijklmnopqrstuvwxyz\nEXT. B - NIGHT\nabcdefghijklmnopqrstuvwxyz".toList ≠ [] ∧
      (extract_scenes "INT. A - DAY\nabcdefghijklmnopqrstuvwxyz\nEXT. B - NIGHT\nabcdefghijklmnopqrstuvwxyz".toList
          "F".toList).Pairwise (fun a b => a.scene_id < b.scene_id) ∧
      ∀ d ∈ extract_scenes "INT. A - DAY\nabcdefghijklmnopqrstuvwxyz\nEXT. B - NIGHT\nabcdefghijklmnopqrstuvwxyz".toList
          "F".toList, 1 ≤ d.scene_id) := by
  have h1 : findHeaders "hello".toList = [] := by decide
  have h2 : findHeaders "INT. A - DAY\nabcdefghijklmnopqrstuvwxyz\nEXT. B - NIGHT\nabcdefghijklmnopqrstuvwxyz".toList ≠ [] := by
    decide
  exact ⟨⟨h1, (scene_id_invariants _ _).1 h1⟩,
    ⟨h2, (scene_id_invariants _ ("F".toList)).2 h2⟩⟩

/-! ## Helper lemmas about chunking -/

/-- The global ids the inner chunk loop emits are consecutive from the
running counter. -/
theorem emitChunks_map_chunk_id (film : List Char) (sid : Nat)
    (heading : List Char) (total : Nat) :
    ∀ (ts : List (List Char)) (counter i : Nat),
      (emitChunks film sid heading total counter i ts).map (fun c => c.chunk_id)
        = List.range' counter ts.length := by
  intro ts
  induction ts with
  | nil => intro counter i; simp [emitChunks]
  | cons t ts ih =>
    intro counter i
    rw [emitChunks, List.map_cons, ih (counter+1) (i+1), List.length_cons,
      List.range'_succ]

/-- The chunk indices the inner chunk loop emits are consecutive from `i`. -/
theorem emitChunks_map_chunk_index (film : List Char) (sid : Nat)
    (heading : List Char) (total : Nat) :
    ∀ (ts : List (List Char)) (counter i : Nat),
      (emitChunks film sid heading total counter i ts).map (fun c => c.chunk_index)
        = List.range' i ts.length := by
  intro ts
  induction ts with
  | nil => intro counter i; simp [emitChunks]
  | cons t ts ih =>
    intro counter i
    rw [emitChunks, List.map_cons, ih (counter+1) (i+1), List.length_cons,
      List.range'_succ]

/-- The inner chunk loop emits one chunk per split. -/
theorem emitChunks_length (film : List Char) (sid : Nat)
    (heading : List Char) (total : Nat) (ts : List (List Char))
    (counter i : Nat) :
    (emitChunks film sid heading total counter i ts).length = ts.length := by
  have := congrArg List.length
    (emitChunks_map_chunk_id film sid heading total ts counter i)
  simpa using this

/-- Every chunk the inner loop emits carries the parent Document's film and
scene id, and the loop's `total_chunks` argument. -/
theorem mem_emitChunks (film : List Char) (sid : Nat)
    (heading : List Char) (total : Nat) :
    ∀ (ts : List (List Char)) (counter i : Nat) (c : Chunk),
      c ∈ emitChunks film sid heading total counter i ts →
      c.film = film ∧ c.scene_id = sid ∧ c.total_chunks = total := by
  intro ts
  induction ts with
  | nil => intro counter i c hc; simp [emitChunks] at hc
  | cons t ts ih =>
    intro counter i c hc
    rw [emitChunks] at hc
    rcases List.mem_cons.1 hc with rfl | hc'
    · exact ⟨rfl, rfl, rfl⟩
    · exact ih (counter+1) (i+1) c hc'

/-- The global ids across the whole corpus are consecutive from the starting
counter. -/
theorem chunkDocsFrom_map_chunk_id (split : List Char → List (List Char)) :
    ∀ (ds : List Document) (counter : Nat),
      (chunkDocsFrom split ds counter).map (fun c => c.chunk_id)
        = List.range' counter (chunkDocsFrom split ds counter).length := by
  intro ds
  induction ds with
  | nil => intro counter; simp [chunkDocsFrom]
  | cons d ds ih =>
    intro counter
    rw [chunkDocsFrom, List.map_append,
      emitChunks_map_chunk_id d.film d.scene_id d.heading
        (split d.text).length (split d.text) counter 0,
      ih (counter + (split d.text).length), List.length_append,
      emitChunks_length, List.range'_append_1]
    rw [Nat.add_comm (split d.text).length _]

/-- Every chunk of the corpus carries the key and split count of some input
Document. -/
theorem mem_chunkDocsFrom (split : List Char → List (List Char)) :
    ∀ (ds : List Document) (counter : Nat) (c : Chunk),
      c ∈ chunkDocsFrom split ds counter →
      ∃ d ∈ ds, c.film = d.film ∧ c.scene_id = d.scene_id ∧
        c.total_chunks = (split d.text).length := by
  intro ds
  induction ds with
  | nil => intro counter c hc; simp [chunkDocsFrom] at hc
  | cons d ds ih =>
    intro counter c hc
    rw [chunkDocsFrom] at hc
    rcases List.mem_append.1 hc with hl | hr
    · obtain ⟨h1, h2, h3⟩ := mem_emitChunks _ _ _ _ _ _ _ c hl
      exact ⟨d, List.mem_cons_self d ds, h1, h2, h3⟩
    · obtain ⟨d', hd', h⟩ := ih _ c hr
      exact ⟨d', List.mem_cons_of_mem d hd', h⟩

/-- When the input Documents carry pairwise distinct `(film, scene_id)`
keys, filtering the corpus by a Document's key recovers exactly that
Document's block of chunks (at some starting counter). -/
theorem filter_chunkDocsFrom (split : List Char → List (List Char))
    (d : Document) :
    ∀ (ds : List Document) (counter : Nat),
      ds.Pairwise (fun a b => ¬ (a.film = b.film ∧ a.scene_id = b.scene_id)) →
      d ∈ ds →
      ∃ k, (chunkDocsFrom split ds counter).filter
          (fun c => decide (c.film = d.film ∧ c.scene_id = d.scene_id))
        = emitChunks d.film d.scene_id d.heading
            (split d.text).length k 0 (split d.text) := by
  intro ds
  induction ds with
  | nil => intro counter _ hd; simp at hd
  | cons a ds ih =>
    intro counter hpw hd
    rw [List.pairwise_cons] at hpw
    obtain ⟨ha, hpw'⟩ := hpw
    rw [chunkDocsFrom, List.filter_append]
    rcases List.mem_cons.1 hd with rfl | hd'
    · refine ⟨counter, ?_⟩
      have hblock : (emitChunks d.film d.scene_id d.heading
          (split d.text).length counter 0 (split d.text)).filter
            (fun c => decide (c.film = d.film ∧ c.scene_id = d.scene_id))
          = emitChunks d.film d.scene_id d.heading
              (split d.text).length counter 0 (split d.text) := by
        apply List.filter_eq_self.2
        intro c hc
        obtain ⟨h1, h2, _⟩ := mem_emitChunks _ _ _ _ _ _ _ c hc
        simp [h1, h2]
      have hrest : (chunkDocsFrom split ds (counter + (split d.text).length)).filter
          (fun c => decide (c.film = d.film ∧ c.scene_id = d.scene_id)) = [] := by
        apply List.filter_eq_nil_iff.2
        intro c hc
        obtain ⟨b, hb, h1, h2, _⟩ := mem_chunkDocsFrom split ds _ c hc
        simp only [decide_eq_true_iff, not_and]
        intro hcf hcs
        exact ha b hb ⟨by rw [← h1, hcf], by rw [← h2, hcs]⟩
      rw [hblock, hrest, List.append_nil]
    · have hblock : (emitChunks a.film a.scene_id a.heading
          (split a.text).length counter 0 (split a.text)).filter
            (fun c => decide (c.film = d.film ∧ c.scene_id = d.scene_id)) = [] := by
        apply List.filter_eq_nil_iff.2
        intro c hc
        obtain ⟨h1, h2, _⟩ := mem_emitChunks _ _ _ _ _ _ _ c hc
        simp only [decide_eq_true_iff, not_and]
        intro hcf hcs
        exact ha d hd' ⟨by rw [← h1, hcf], by rw [← h2, hcs]⟩
      obtain ⟨k, hk⟩ := ih (counter + (split a.text).length) hpw' hd'
      exact ⟨k, by rw [hblock, hk, List.nil_append]⟩

/-! ## C10 — chunk id / index / count invariants -/

set_option maxRecDepth 8000 in
/-- Claim C10, counterexample: on a Document list in which two Documents
share the `(film, scene_id)` key `("A B", 1)` — as happens when two input
files derive the same film title — chunks sharing that key carry different
`total_chunks` values (1 from the one-chunk scene, 2 from the two-chunk
scene), so the claim's `total_chunks` constancy fails. -/
theorem chunk_total_chunks_cex :
    ((chunk_documents splitModel dupKeyDocs).map (fun c => c.total_chunks)
      = [1, 2, 2]) ∧
    (∀ c ∈ chunk_documents splitModel dupKeyDocs,
      c.film = "A B".toList ∧ c.scene_id = 1) ∧
    ¬ (∀ c ∈ chunk_documents splitModel dupKeyDocs,
        ∀ c2 ∈ chunk_documents splitModel dupKeyDocs,
          c.film = c2.film → c.scene_id = c2.scene_id →
            c.total_chunks = c2.total_chunks) := by
  refine ⟨by decide, by decide, by decide⟩

/-- Claim C10, amended: for every list of Documents whose members carry
pairwise distinct `(film, scene_id)` keys, the chunks produced by
`chunk_documents` (under any splitter) have globally unique, strictly
increasing `chunk_id`s — consecutive ordinals from 0 in emission order —
within each Document the `chunk_index` values run 0, 1, 2, … in order, and
every chunk sharing a `(film, scene_id)` key carries the same
`total_chunks`, equal to the number of chunks that Document produced. -/
theorem chunk_invariants_amended (split : List Char → List (List Char))
    (docs : List Document)
    (hkeys : docs.Pairwise (fun a b => ¬ (a.film = b.film ∧ a.scene_id = b.scene_id))) :
    ((chunk_documents split docs).map (fun c => c.chunk_id)
        = List.range (chunk_documents split docs).length)
    ∧ (chunk_documents split docs).Pairwise (fun a b => a.chunk_id < b.chunk_id)
    ∧ ∀ d ∈ docs,
        (((chunk_documents split docs).filter
            (fun c => decide (c.film = d.film ∧ c.scene_id = d.scene_id))).map
              (fun c => c.chunk_index) = List.range (split d.text).length)
        ∧ ∀ c ∈ (chunk_documents split docs).filter
            (fun c => decide (c.film = d.film ∧ c.scene_id = d.scene_id)),
            c.total_chunks = (split d.text).length := by
  have hids : (chunk_documents split docs).map (fun c => c.chunk_id)
      = List.range (chunk_documents split docs).length := by
    rw [chunk_documents, chunkDocsFrom_map_chunk_id split docs 0,
      ← List.range_eq_range']
  refine ⟨hids, ?_, ?_⟩
  · have hpw : ((chunk_documents split docs).map (fun c => c.chunk_id)).Pairwise
        (· < ·) := by
      rw [hids]
      exact List.pairwise_lt_range _
    exact (List.pairwise_map.1 hpw).imp (fun h => h)
  · intro d hd
    obtain ⟨k, hk⟩ := filter_chunkDocsFrom split d docs 0 hkeys hd
    rw [chunk_documents, hk]
    constructor
    · rw [emitChunks_map_chunk_index, ← List.range_eq_range']
    · intro c hc
      exact (mem_emitChunks _ _ _ _ _ _ _ c hc).2.2

/-- Witness for the amended C10 at a concrete splitter and Document list
with distinct keys. -/
theorem chunk_invariants_amended_wit :
    (distinctKeyDocs.Pairwise
        (fun a b => ¬ (a.film = b.film ∧ a.scene_id = b.scene_id))) ∧
    (((chunk_documents splitModel distinctKeyDocs).map (fun c => c.chunk_id)
        = List.range (chunk_documents splitModel distinctKeyDocs).length)
    ∧ (chunk_documents splitModel distinctKeyDocs).Pairwise
        (fun a b => a.chunk_id < b.chunk_id)
    ∧ ∀ d ∈ distinctKeyDocs,
        (((chunk_documents splitModel distinctKeyDocs).filter
            (fun c => decide (c.film = d.film ∧ c.scene_id = d.scene_id))).map
              (fun c => c.chunk_index) = List.range (splitModel d.text).length)
        ∧ ∀ c ∈ (chunk_documents splitModel distinctKeyDocs).filter
            (fun c => decide (c.film = d.film ∧ c.scene_id = d.scene_id)),
            c.total_chunks = (splitModel d.text).length) := by
  have hp : distinctKeyDocs.Pairwise
      (fun a b => ¬ (a.film = b.film ∧ a.scene_id = b.scene_id)) := by
    decide
  exact ⟨hp, chunk_invariants_amended splitModel distinctKeyDocs hp⟩

/-! ## Helper lemmas about the Indexer -/

/-- `coll_add` leaves entries of other names unchanged. -/
theorem map_keep_of_ne (n : List Char) (ids : List (List Char)) :
    ∀ (cleaned : List (List Char × List (List Char))),
      (∀ p ∈ cleaned, p.1 ≠ n) →
      cleaned.map (fun p => if p.1 = n then (p.1, p.2 ++ ids) else p) = cleaned := by
  intro cleaned
  induction cleaned with
  | nil => intro _; rfl
  | cons p ps ih =>
    intro h
    rw [List.map_cons, if_neg (h p (List.mem_cons_self p ps)),
      ih (fun q hq => h q (List.mem_cons_of_mem p hq))]

/-- `coll_add` on a store whose last entry is the target collection appends
the ids to that entry only. -/
theorem coll_add_shape (cleaned : List (List Char × List (List Char)))
    (acc ids : List (List Char))
    (hn : ∀ p ∈ cleaned, p.1 ≠ COLLECTION_NAME) :
    coll_add ⟨cleaned ++ [(COLLECTION_NAME, acc)]⟩ COLLECTION_NAME ids
      = ⟨cleaned ++ [(COLLECTION_NAME, acc ++ ids)]⟩ := by
  rw [coll_add]
  congr 1
  rw [List.map_append, map_keep_of_ne COLLECTION_NAME ids cleaned hn]
  simp

/-- Folding the batch loop over a freshly created collection accumulates
exactly the concatenation of the batches' id lists. -/
theorem fold_coll_add (chunks : List Chunk) :
    ∀ (bs : List Nat) (cleaned : List (List Char × List (List Char)))
      (acc : List (List Char)),
      (∀ p ∈ cleaned, p.1 ≠ COLLECTION_NAME) →
      bs.foldl
          (fun st b =>
            coll_add st COLLECTION_NAME
              ((batchOf chunks b).map (fun c => strOfNat c.chunk_id)))
          ⟨cleaned ++ [(COLLECTION_NAME, acc)]⟩
        = ⟨cleaned ++ [(COLLECTION_NAME,
            acc ++ (bs.map (fun b =>
              (batchOf chunks b).map (fun c => strOfNat c.chunk_id))).flatten)]⟩ := by
  intro bs
  induction bs with
  | nil => intro cleaned acc h; simp
  | cons b bs ih =>
    intro cleaned acc h
    rw [List.foldl_cons,
      coll_add_shape cleaned acc ((batchOf chunks b).map (fun c => strOfNat c.chunk_id)) h,
      ih cleaned _ h]
    simp [List.append_assoc]

/-- Looking up the target collection in a store whose only entry of that
name is last yields that entry's ids. -/
theorem coll_ids_shape :
    ∀ (cleaned : List (List Char × List (List Char))) (acc : List (List Char)),
      (∀ p ∈ cleaned, p.1 ≠ COLLECTION_NAME) →
      coll_ids ⟨cleaned ++ [(COLLECTION_NAME, acc)]⟩ COLLECTION_NAME = acc := by
  intro cleaned
  induction cleaned with
  | nil => intro acc _; simp [coll_ids]
  | cons p ps ih =>
    intro acc h
    have hp : p.1 ≠ COLLECTION_NAME := h p (List.mem_cons_self p ps)
    have hrec := ih acc (fun q hq => h q (List.mem_cons_of_mem p hq))
    rw [coll_ids] at hrec ⊢
    simpa [List.find?_cons, hp] using hrec

/-- After the delete/create preamble of `build_chroma_collection`, the store
consists of entries of other names followed by a fresh empty collection of
the target name. -/
theorem build_shape_start (store : ChromaStore) :
    ∃ cleaned, (∀ p ∈ cleaned, p.1 ≠ COLLECTION_NAME) ∧
      create_collection
          (if COLLECTION_NAME ∈ list_collections store then
            delete_collection store COLLECTION_NAME
          else store)
          COLLECTION_NAME
        = ⟨cleaned ++ [(COLLECTION_NAME, [])]⟩ := by
  by_cases h : COLLECTION_NAME ∈ list_collections store
  · refine ⟨(delete_collection store COLLECTION_NAME).colls, ?_,
      by simp [create_collection, h]⟩
    intro p hp
    rw [delete_collection] at hp
    simp only [List.mem_filter, Bool.not_eq_true', decide_eq_false_iff_not] at hp
    exact hp.2
  · refine ⟨store.colls, ?_, by simp [create_collection, h]⟩
    intro p hp hcontra
    exact h (hcontra ▸ List.mem_map_of_mem Prod.fst hp)

/-- The batch slices of a list, taken for enough batches to cover its
length, concatenate back to the list. -/
theorem batches_flatten :
    ∀ (k : Nat) (l : List Chunk), l.length ≤ BATCH_SIZE * k →
      ((List.range k).map (fun b => batchOf l b)).flatten = l := by
  intro k
  induction k with
  | zero =>
    intro l hl
    simp only [BATCH_SIZE, Nat.mul_zero, Nat.le_zero] at hl
    rw [List.eq_nil_of_length_eq_zero hl]
    rfl
  | succ k ih =>
    intro l hl
    rw [List.range_succ_eq_map, List.map_cons, List.flatten_cons, List.map_map]
    have hhead : batchOf l 0 = l.take BATCH_SIZE := by
      rw [batchOf, Nat.zero_mul, List.drop_zero]
    have hfun : (fun b => batchOf l b) ∘ Nat.succ
        = fun b => batchOf (l.drop BATCH_SIZE) b := by
      funext b
      simp only [Function.comp_apply, batchOf, List.drop_drop]
      congr 2
      simp only [BATCH_SIZE]
      omega
    rw [hhead, hfun, ih (l.drop BATCH_SIZE)
      (by simp only [List.length_drop, BATCH_SIZE] at *; omega)]
    exact List.take_append_drop _ _

/-- The collection built by `build_chroma_collection` holds exactly the
string forms of the input chunks' ids, in order, whatever the prior state of
the store. -/
theorem build_coll_ids (chunks : List Chunk) (store : ChromaStore) :
    coll_ids (build_chroma_collection chunks store) COLLECTION_NAME
      = chunks.map (fun c => strOfNat c.chunk_id) := by
  obtain ⟨cleaned, hcl, heq⟩ := build_shape_start store
  rw [build_chroma_collection, heq, fold_coll_add chunks _ cleaned [] hcl,
    coll_ids_shape cleaned _ hcl, List.nil_append]
  have hmm : (List.range ((chunks.length + BATCH_SIZE - 1) / BATCH_SIZE)).map
        (fun b => (batchOf chunks b).map (fun c => strOfNat c.chunk_id))
      = ((List.range ((chunks.length + BATCH_SIZE - 1) / BATCH_SIZE)).map
          (fun b => batchOf chunks b)).map
            (List.map (fun c => strOfNat c.chunk_id)) := by
    rw [List.map_map]
    rfl
  rw [hmm, ← List.map_flatten, batches_flatten _ chunks ?hcover]
  case hcover =>
    simp only [BATCH_SIZE]
    omega

/-! ## C6 — rebuilding the index -/

/-- Claim C6: rebuilding the collection twice from the same chunk set yields
identical id lists (hence identical id sets and sizes) both times; the
pre-existing collection is discarded, so the built collection holds exactly
the ids of the chunks surviving the minimum-length filter of `load_chunks`,
and its count equals their number. -/
theorem index_rebuild_idempotent (raw : List Chunk) (store : ChromaStore) :
    (coll_ids (build_chroma_collection (load_chunks raw) store) COLLECTION_NAME
      = coll_ids
          (build_chroma_collection (load_chunks raw)
            (build_chroma_collection (load_chunks raw) store))
          COLLECTION_NAME)
    ∧ (coll_ids (build_chroma_collection (load_chunks raw) store) COLLECTION_NAME
        = (load_chunks raw).map (fun c => strOfNat c.chunk_id))
    ∧ (coll_count (build_chroma_collection (load_chunks raw) store) COLLECTION_NAME
        = (load_chunks raw).length)
    ∧ (coll_count
          (build_chroma_collection (load_chunks raw)
            (build_chroma_collection (load_chunks raw) store))
          COLLECTION_NAME
        = (load_chunks raw).length) := by
  have h1 := build_coll_ids (load_chunks raw) store
  have h2 := build_coll_ids (load_chunks raw)
    (build_chroma_collection (load_chunks raw) store)
  refine ⟨by rw [h1, h2], h1, ?_, ?_⟩
  · rw [coll_count, h1, List.length_map]
  · rw [coll_count, h2, List.length_map]
